import Mathlib

/-!
Verification of the depup package-revision pipeline and integrity-scoring
engine.  The definitions below are shallow embeddings of the JavaScript
source under `scripts/` (depup.mjs — both the legacy simple driver and the
current commander-based driver bundled in the repository —
integrity-meter.mjs, fix-version-format.mjs, and the sandboxed processor's
`validateProcessedPackage`).  Strings are modelled as `List Char` where
parsing matters and as `String` where only literal equality matters;
JavaScript integer values (counters, indices) are modelled as `Nat`/`Int`
(exact in binary64 below `2^53`, which every count reachable by the
append-only `++` writers satisfies), while the integrity meter's score
arithmetic — where rounding is observable — is modelled operation by
operation in IEEE-754 binary64 (`FP` below); JSON objects are modelled as
association lists in key-insertion order; thrown exceptions are modelled
with `Option`/`Except`.
-/

set_option maxRecDepth 40000

namespace Depup

/-! ## Definitions -/

/-! ### Decimal digits -/

/-- One decimal digit character, `digitCh n` for `n ≤ 9`. -/
def digitCh (n : Nat) : Char := Char.ofNat (48 + n)

/-- Decimal rendering of a natural number, most significant digit first.
    Models JavaScript template interpolation of a non-negative integer. -/
def toDec (n : Nat) : List Char :=
  if _h : n < 10 then [digitCh n]
  else toDec (n / 10) ++ [digitCh (n % 10)]
  termination_by n
  decreasing_by
    exact Nat.div_lt_self (Nat.lt_of_lt_of_le (by norm_num) (Nat.le_of_not_lt _h)) (by norm_num)

/-- Decimal value of a digit string (each char assumed to be a digit). -/
def ofDec (ds : List Char) : Nat :=
  ds.foldl (fun a c => a * 10 + (c.toNat - 48)) 0

/-! ### JavaScript `Number.parseInt(s, 10)` on directory-name suffixes

`Number.parseInt` skips leading whitespace, accepts an optional sign, then
reads a maximal run of decimal digits; it yields NaN when no digit is read
(the pipeline filters NaN out with `Number.isNaN`), modelled as `none`. -/

def jsSpace (c : Char) : Bool :=
  c = ' ' || c = '\t' || c = '\n' || c = '\r' || c = '\x0b' || c = '\x0c'

/-- Value of the maximal leading digit run, `none` when there is none. -/
def digitsVal (r : List Char) : Option Nat :=
  let ds := r.takeWhile Char.isDigit
  if ds.isEmpty then none else some (ofDec ds)

/-- `Number.parseInt(s, 10)`, with `none` standing for NaN. -/
def jsParseInt (s : List Char) : Option Int :=
  match s.dropWhile jsSpace with
  | [] => none
  | c :: r =>
    if c = '-' then (digitsVal r).map (fun n => -(n : Int))
    else if c = '+' then (digitsVal r).map (fun n => (n : Int))
    else (digitsVal (c :: r)).map (fun n => (n : Int))

/-! ### Revision allocator (scripts/depup.mjs, `processPackage` and legacy `main`)

Both drivers read the base-version directory, keep directory entries whose
name starts with `rev-`, parse the integer after the marker
(`e.name.replace('rev-', '')` drops the leading marker since the filter
guarantees it is a prefix), drop NaN results, and return
`Math.max(...revs) + 1`, or `0` when no entry parsed. -/

structure DirEntry where
  name : List Char
  isDir : Bool
deriving DecidableEq

def revMarker : List Char := ['r', 'e', 'v', '-']

def parseRevEntry (e : DirEntry) : Option Int :=
  if e.isDir && revMarker.isPrefixOf e.name then jsParseInt (e.name.drop 4)
  else none

def nextRevision (entries : List DirEntry) : Int :=
  match entries.filterMap parseRevEntry with
  | [] => 0
  | r :: rs => rs.foldl max r + 1

/-- JavaScript rendering `${i}` of a (possibly negative) integer. -/
def intDec : Int → List Char
  | .ofNat n => toDec n
  | .negSucc n => '-' :: toDec (n + 1)

/-- The directory name `rev-${revision}` the caller creates after allocation. -/
def revName (i : Int) : List Char := revMarker ++ intDec i

/-- `N` single-writer allocate-then-create rounds starting from an empty
    base-version directory: the accumulated directory listing and the
    sequence of allocated indices. -/
def allocStates : Nat → List (List Char) × List Int
  | 0 => ([], [])
  | n + 1 =>
    let p := allocStates n
    let r := nextRevision (p.1.map (fun nm => ⟨nm, true⟩))
    (p.1 ++ [revName r], p.2 ++ [r])

/-! ### Association maps (JSON objects in key-insertion order) -/

def getAssoc {K V : Type} [DecidableEq K] : List (K × V) → K → Option V
  | [], _ => none
  | (k', v') :: t, k => if k' = k then some v' else getAssoc t k

/-- JavaScript property assignment `o[k] = v`: an existing key keeps its
    position, a new key is appended. -/
def setAssoc {K V : Type} [DecidableEq K] : List (K × V) → K → V → List (K × V)
  | [], k, v => [(k, v)]
  | (k', v') :: t, k, v => if k' = k then (k, v) :: t else (k', v') :: setAssoc t k v

/-! ### Publish gate and recorded status (scripts/depup.mjs, `processPackage`)

After preparing a revision, the pipeline publishes only when publishing was
requested and `revision === 0 || dependenciesUpdated > 0`, then records
`shouldPublish ? (published ? 'published' : 'skipped') : 'prepared'`. -/

/-- The gate condition `revision === 0 || dependenciesUpdated > 0`. -/
def gateCondition (revision dependenciesUpdated : Nat) : Bool :=
  revision == 0 || dependenciesUpdated > 0

/-- Whether the publish step is invoked:
    `if (shouldPublish) { if (revision === 0 || dependenciesUpdated > 0) publish }`. -/
def publishInvoked (shouldPublish : Bool) (revision dependenciesUpdated : Nat) : Bool :=
  shouldPublish && gateCondition revision dependenciesUpdated

/-- The status string passed to `updateIntegrityData` on a run whose steps did
    not throw: `shouldPublish ? (published ? 'published' : 'skipped') : 'prepared'`. -/
def recordedStatus (shouldPublish : Bool) (revision dependenciesUpdated : Nat) : String :=
  if shouldPublish then
    if publishInvoked shouldPublish revision dependenciesUpdated then "published"
    else "skipped"
  else "prepared"

/-! ### Integrity file (integrity.json) and vote file (votes.json)

`integrity.json` maps baseVersion → revision → an object that may carry the
pipeline fields `version`/`timestamp`/`status` and the vote-derived
sub-object `integrity`.  `votes.json` maps baseVersion → revision → vote
counters plus an append-only `details` list. -/

structure Snap where
  score : Int
  totalVotes : Nat
  upVotes : Nat
  downVotes : Nat
  neutralVotes : Nat
  lastUpdated : Nat
deriving DecidableEq

structure RevEntry where
  version : Option String
  timestamp : Option Nat
  status : Option String
  integrity : Option Snap
deriving DecidableEq

def emptyRevEntry : RevEntry := ⟨none, none, none, none⟩

abbrev IntegrityFile := List (String × List (String × RevEntry))

structure VoteDetail where
  id : String
  vote : String
  description : String
  timestamp : Nat
  user : String
deriving DecidableEq

structure VoteData where
  up : Nat
  down : Nat
  neutral : Nat
  details : List VoteDetail
deriving DecidableEq

abbrev VotesFile := List (String × List (String × VoteData))

inductive VoteDir | up | down | neutral
deriving DecidableEq

def VoteDir.str : VoteDir → String
  | .up => "up"
  | .down => "down"
  | .neutral => "neutral"

/-- integrity-meter.mjs `vote`, lines 88-97: bump the counter for the cast
    direction and push a detail record. -/
def applyVote (vd : VoteData) (dir : VoteDir) (id desc user : String) (now : Nat) :
    VoteData :=
  let vd' := match dir with
    | .up => { vd with up := vd.up + 1 }
    | .down => { vd with down := vd.down + 1 }
    | .neutral => { vd with neutral := vd.neutral + 1 }
  { vd' with details := vd'.details ++ [⟨id, dir.str, desc, now, user⟩] }

/-- integrity-meter.mjs `vote`: locate (or initialise) the vote record for
    version/revision, apply the vote, and store it back.  Returns the new
    file together with the vote record handed to `updateIntegrityData`. -/
def recordVote (votes : VotesFile) (version revision : String) (dir : VoteDir)
    (id desc user : String) (now : Nat) : VotesFile × VoteData :=
  let vMap := (getAssoc votes version).getD []
  let vd := (getAssoc vMap revision).getD ⟨0, 0, 0, []⟩
  let vd' := applyVote vd dir id desc user now
  (setAssoc votes version (setAssoc vMap revision vd'), vd')

/-! #### IEEE-754 binary64 arithmetic

The meter computes `((up - down) / total) * 100` in JavaScript numbers,
i.e. binary64 doubles, before `Math.round`.  A finite double is modelled as
`m * 2^k` with integer significand and exponent (`FP`); each arithmetic
operation rounds the exact result to 53 significand bits, to nearest with
ties to even.  Zero is `⟨0, 0⟩`; subnormal underflow and overflow to
infinity are outside the value range the meter's expression can reach for
representable counts and are not modelled. -/

/-- Bit length of a natural number (`⌊log2 n⌋ + 1` for `n > 0`).  Fuel-based
    recursion (the bit length of `n` is at most `n`) so the kernel can
    evaluate it. -/
def bitLenAux : Nat → Nat → Nat
  | 0, _ => 0
  | fuel + 1, n => if n = 0 then 0 else bitLenAux fuel (n / 2) + 1

def bitLen (n : Nat) : Nat := bitLenAux n n

/-- Round `p / q` (with `q > 0`) to the nearest natural, ties to even. -/
def rneNat (p q : Nat) : Nat :=
  let d := p / q
  let r := p % q
  if 2 * r < q then d
  else if q < 2 * r then d + 1
  else if d % 2 = 0 then d else d + 1

/-- A finite binary64 value `m * 2^k`. -/
structure FP where
  m : Int
  k : Int
deriving DecidableEq

/-- Round the exact rational `(n / d) * 2^s` (`d > 0`) to binary64: locate
    the leading bit `f` of `|n| / d`, take the 53-bit significand by a
    single round-to-nearest-even of `(|n| / d) * 2^(52 - f)`, and carry when
    the rounding overflows to `2^53`. -/
def fpRound (n : Int) (d : Nat) (s : Int) : FP :=
  if n = 0 then ⟨0, 0⟩
  else
    let a := n.natAbs
    let f0 : Int := (bitLen a : Int) - (bitLen d : Int)
    let ge : Bool := if 0 ≤ f0 then decide (d * 2 ^ f0.toNat ≤ a)
      else decide (d ≤ a * 2 ^ (-f0).toNat)
    let f : Int := if ge then f0 else f0 - 1
    let t : Int := 52 - f
    let m0 : Nat := if 0 ≤ t then rneNat (a * 2 ^ t.toNat) d
      else rneNat a (d * 2 ^ (-t).toNat)
    let m1 : Nat := if m0 = 2 ^ 53 then 2 ^ 52 else m0
    let f1 : Int := if m0 = 2 ^ 53 then f + 1 else f
    ⟨if n < 0 then -(m1 : Int) else (m1 : Int), s + f1 - 52⟩

/-- Binary64 addition: round the exact sum. -/
def fpAdd (x y : FP) : FP :=
  let kmin := min x.k y.k
  fpRound (x.m * 2 ^ (x.k - kmin).toNat + y.m * 2 ^ (y.k - kmin).toNat) 1 kmin

/-- Binary64 subtraction (negation is exact). -/
def fpSub (x y : FP) : FP := fpAdd x ⟨-y.m, y.k⟩

/-- Binary64 multiplication: round the exact product. -/
def fpMul (x y : FP) : FP := fpRound (x.m * y.m) 1 (x.k + y.k)

/-- Binary64 division: round the exact quotient (`y` nonzero). -/
def fpDiv (x y : FP) : FP :=
  fpRound (if y.m < 0 then -x.m else x.m) y.m.natAbs (x.k - y.k)

/-- The double holding a natural number (exact below `2^53`). -/
def fpOfNat (n : Nat) : FP := fpRound n 1 0

/-- `x > 0` on doubles. -/
def FP.isPos (x : FP) : Bool := 0 < x.m

/-- `Math.round`: the integer nearest the double's exact value, ties toward
    `+∞`, i.e. `⌊m * 2^k + 1/2⌋`, computed with floor division. -/
def fpMathRound (x : FP) : Int :=
  if 0 ≤ x.k then x.m * 2 ^ x.k.toNat
  else Int.fdiv (2 * x.m + 2 ^ (-x.k).toNat) (2 ^ ((-x.k).toNat + 1))

/-- integrity-meter.mjs `updateIntegrityData`, lines 216-226: the snapshot
    written under the `integrity` key.  The score is `Math.round` of the
    binary64 evaluation of `((up - down) / total) * 100` when `total > 0`,
    else of `0`.  The stored `totalVotes` double equals the exact sum for
    representable counts, kept here as the `Nat` sum. -/
def meterSnap (vd : VoteData) (now : Nat) : Snap :=
  let total : FP := fpAdd (fpAdd (fpOfNat vd.up) (fpOfNat vd.down)) (fpOfNat vd.neutral)
  let score : FP :=
    if total.isPos then
      fpMul (fpDiv (fpSub (fpOfNat vd.up) (fpOfNat vd.down)) total) (fpOfNat 100)
    else ⟨0, 0⟩
  ⟨fpMathRound score, vd.up + vd.down + vd.neutral, vd.up, vd.down, vd.neutral, now⟩

/-- integrity-meter.mjs `updateIntegrityData`, lines 198-229: initialise the
    nesting levels if missing, then set only the `integrity` sub-key of the
    revision's record, preserving its other fields. -/
def meterUpdateIntegrityData (file : IntegrityFile) (version revision : String)
    (vd : VoteData) (now : Nat) : IntegrityFile :=
  let vMap := (getAssoc file version).getD []
  let entry := (getAssoc vMap revision).getD emptyRevEntry
  setAssoc file version
    (setAssoc vMap revision { entry with integrity := some (meterSnap vd now) })

/-- The score formula exactly as the spec words it:
    `round(((up − down) / total) * 100)` when `total > 0`, else `0`. -/
def specScore (up down neutral : Nat) : Int :=
  let total := up + down + neutral
  if total > 0 then round ((((up : ℚ) - down) / total) * 100) else 0

/-- scripts/depup.mjs `updateIntegrityData` (current driver, lines 892-923):
    initialise the baseVersion level if missing, then assign a fresh
    `{version, timestamp, status}` object to the revision key — replacing
    whatever record (including any `integrity` sub-object) was there. -/
def depupUpdateIntegrityData (file : IntegrityFile) (baseVersion revision : String)
    (version : String) (now : Nat) (status : String) : IntegrityFile :=
  let bvMap := (getAssoc file baseVersion).getD []
  setAssoc file baseVersion
    (setAssoc bvMap revision ⟨some version, some now, some status, none⟩)

/-- scripts/depup.mjs `updateIntegrityData` (legacy driver, lines 249-271):
    same shape, but the version string is recomputed as
    `${baseVersion}-depup.${revision}` and the status is hard-coded
    `'published'`. -/
def legacyUpdateIntegrityData (file : IntegrityFile) (baseVersion revision : String)
    (now : Nat) : IntegrityFile :=
  let bvMap := (getAssoc file baseVersion).getD []
  setAssoc file baseVersion
    (setAssoc bvMap revision
      ⟨some (baseVersion ++ "-depup." ++ revision), some now, some "published", none⟩)

/-- Legacy driver `main` (lines 88-98): when publishing is requested the
    publish step runs first and a thrown error exits the process before any
    integrity write (`none`); otherwise `updateIntegrityData` is called
    unconditionally — with its hard-coded `'published'` status. -/
def legacyRun (file : IntegrityFile) (baseVersion revision : String) (now : Nat)
    (shouldPublish publishOk : Bool) : Option IntegrityFile :=
  if shouldPublish && !publishOk then none
  else some (legacyUpdateIntegrityData file baseVersion revision now)

/-- Current driver `processPackage` (lines 493-525): the publish step runs
    only when the gate decides to publish; a publish failure propagates
    (`none`, no status write); otherwise the selected status is recorded. -/
def currentRun (file : IntegrityFile) (baseVersion revisionKey version : String)
    (now : Nat) (shouldPublish publishOk : Bool) (revision dependenciesUpdated : Nat) :
    Option IntegrityFile :=
  if publishInvoked shouldPublish revision dependenciesUpdated && !publishOk then none
  else some (depupUpdateIntegrityData file baseVersion revisionKey version now
      (recordedStatus shouldPublish revision dependenciesUpdated))

/-- Status field of the record stored for `baseVersion`/`revisionKey`. -/
def statusAt (file : IntegrityFile) (baseVersion revisionKey : String) : Option String :=
  ((getAssoc ((getAssoc file baseVersion).getD []) revisionKey).getD emptyRevEntry).status

/-- Integrity sub-object of the record stored for `baseVersion`/`revisionKey`. -/
def integrityAt (file : IntegrityFile) (baseVersion revisionKey : String) : Option Snap :=
  ((getAssoc ((getAssoc file baseVersion).getD []) revisionKey).getD emptyRevEntry).integrity

/-- A vote-derived snapshot as the meter writes after ten up-votes. -/
def sampleSnapA : Snap := ⟨100, 10, 10, 0, 0, 7⟩

/-- A vote-derived snapshot as the meter writes after 8 up / 2 down votes. -/
def sampleSnapB : Snap := ⟨60, 10, 8, 2, 0, 7⟩

/-- An integrity file that already carries vote-derived snapshots for
    revisions 0 and 1 of base version 1.0.0 (revision 0 also carries
    pipeline fields from an earlier run). -/
def sampleIntegrityFile : IntegrityFile :=
  [("1.0.0",
    [("0", ⟨some "1.0.0-depup.0", some 5, some "prepared", some sampleSnapA⟩),
     ("1", ⟨none, none, none, some sampleSnapB⟩)])]

/-! ### Manifest validation (sandboxed processor, `validateProcessedPackage`)
and the current publish step (scripts/depup.mjs, `publishPackage`) -/

structure Manifest where
  name : String
  scripts : List (String × String)
deriving DecidableEq

deriving instance DecidableEq for Except

def dangerousScripts : List String :=
  ["preinstall", "postinstall", "preuninstall", "postuninstall"]

/-- JS truthiness of `packageJson.scripts?.[script]` (empty string is falsy). -/
def truthyScript (m : Manifest) (k : String) : Bool :=
  match getAssoc m.scripts k with
  | some v => !(v == "")
  | none => false

/-- `validateProcessedPackage`: reject a name without the `@depup/` scope
    (`name.startsWith('@depup/')`, modelled on the character list), then
    reject the first dangerous lifecycle script present. -/
def validateProcessedPackage (m : Manifest) : Except String Unit :=
  if !("@depup/".data.isPrefixOf m.name.data) then
    .error "Package name not properly scoped"
  else
    match dangerousScripts.find? (fun s => truthyScript m s) with
    | some s => .error ("Dangerous script detected: " ++ s)
    | none => .ok ()

/-- scripts/depup.mjs `publishPackage` (current driver, lines 822-890): it
    requires `NPM_TOKEN`, installs devDependencies, and shells out to
    `npm publish`.  It never reads the manifest's scripts; the abstract
    install/transport outcomes are the only failure sources. -/
def publishPackage (npmTokenPresent installOk transportOk : Bool) : Except String Unit :=
  if !npmTokenPresent then
    .error "NPM_TOKEN environment variable is required for publishing"
  else if !installOk then .error "install failed"
  else if !transportOk then .error "publish failed"
  else .ok ()

/-- The publish phase of `processPackage` for a manifest `m`: `m` is only
    handed to `publishPackage` as a directory/name for shelling out, so the
    outcome cannot depend on its scripts.  Result: `none` when a publish
    error propagates (no status recorded), else the `published` flag and the
    status that is recorded. -/
def runPublishPhase (_m : Manifest) (npmTokenPresent installOk transportOk : Bool)
    (shouldPublish : Bool) (revision dependenciesUpdated : Nat) :
    Option (Bool × String) :=
  if publishInvoked shouldPublish revision dependenciesUpdated then
    match publishPackage npmTokenPresent installOk transportOk with
    | .error _ => none
    | .ok _ => some (true, recordedStatus shouldPublish revision dependenciesUpdated)
  else some (false, recordedStatus shouldPublish revision dependenciesUpdated)

/-! ### Semantic versions (the npm `semver` package as used by the current
driver: `semver.gt(latest, declared-with-range-sigil-stripped)`) -/

inductive PreId
  | num : Nat → PreId
  | str : List Char → PreId
deriving DecidableEq

structure SemVer where
  major : Nat
  minor : Nat
  patch : Nat
  pre : List PreId
deriving DecidableEq

/-- A numeric identifier: digits only, no leading zero (except "0"). -/
def parseNumericId (s : List Char) : Option Nat :=
  if s ≠ [] ∧ s.all Char.isDigit ∧ (s = ['0'] ∨ s.head? ≠ some '0') then some (ofDec s)
  else none

def isIdentChar (c : Char) : Bool := c.isAlphanum || c = '-'

/-- A prerelease identifier: digit-only identifiers are numeric (and must
    not carry leading zeros); otherwise alphanumeric/hyphen. -/
def parsePreId (s : List Char) : Option PreId :=
  if s.isEmpty then none
  else if s.all Char.isDigit then (parseNumericId s).map .num
  else if s.all isIdentChar then some (.str s) else none

/-- Strict semver parse `major.minor.patch[-pre][+build]` (build metadata is
    dropped; it never affects precedence). -/
def parseSemver (s : List Char) : Option SemVer :=
  let core := s.takeWhile (fun c => c ≠ '+')
  let main := core.takeWhile (fun c => c ≠ '-')
  let rest := core.dropWhile (fun c => c ≠ '-')
  match main.splitOn '.' with
  | [ma, mi, pa] =>
    match parseNumericId ma, parseNumericId mi, parseNumericId pa with
    | some a, some b, some c =>
      match rest with
      | [] => some ⟨a, b, c, []⟩
      | _ :: pr =>
        match (pr.splitOn '.').mapM parsePreId with
        | some ids => some ⟨a, b, c, ids⟩
        | none => none
    | _, _, _ => none
  | _ => none

/-- ASCII-lexicographic comparison of alphanumeric identifiers. -/
def cmpStr : List Char → List Char → Ordering
  | [], [] => .eq
  | [], _ :: _ => .lt
  | _ :: _, [] => .gt
  | a :: as, b :: bs =>
    match compare a.toNat b.toNat with
    | .eq => cmpStr as bs
    | o => o

/-- Numeric identifiers compare numerically and are lower than alphanumeric. -/
def cmpPreId : PreId → PreId → Ordering
  | .num a, .num b => compare a b
  | .num _, .str _ => .lt
  | .str _, .num _ => .gt
  | .str a, .str b => cmpStr a b

/-- Prerelease lists: pairwise, a strict prefix is lower. -/
def cmpPre : List PreId → List PreId → Ordering
  | [], [] => .eq
  | [], _ :: _ => .lt
  | _ :: _, [] => .gt
  | a :: as, b :: bs =>
    match cmpPreId a b with
    | .eq => cmpPre as bs
    | o => o

/-- Semver precedence: numeric triple, then "a release is higher than any of
    its prereleases", then prerelease comparison. -/
def cmpSemVer (x y : SemVer) : Ordering :=
  match compare x.major y.major with
  | .eq =>
    match compare x.minor y.minor with
    | .eq =>
      match compare x.patch y.patch with
      | .eq =>
        match x.pre, y.pre with
        | [], [] => .eq
        | [], _ :: _ => .gt
        | _ :: _, [] => .lt
        | ap, bp => cmpPre ap bp
      | o => o
    | o => o
  | o => o

def semverGt (x y : SemVer) : Bool := cmpSemVer x y == .gt

/-- `currentVersion.replace(/^[\^~]/, '')`: strip one leading range sigil. -/
def stripRange (s : List Char) : List Char :=
  match s with
  | c :: r => if c = '^' ∨ c = '~' then r else s
  | [] => []

/-! ### Dependency bump (scripts/depup.mjs, `bumpDependencies`, current
driver lines 568-647 and legacy driver lines 118-154)

Both iterate `{...dependencies, ...devDependencies}` — a devDependencies
entry shadows a dependencies entry of the same name — and on an update
rewrite the entry to `^latest` in whichever of the two maps holds the name
(both, when both do), counting one update.  The current driver compares with
`semver.gt` against the sigil-stripped declared value; the legacy driver
compares with plain string inequality against the raw declared value. -/

abbrev DepMap := List (List Char × List Char)

/-- The registry: resolves a dependency name to its `@latest` version, or
    `none` when `pacote.manifest` rejects (swallowed as a warning). -/
abbrev Registry := List Char → Option (List Char)

/-- JS spread `{...a, ...b}`: `a`'s keys in order with `b`'s values winning,
    then `b`'s new keys in order. -/
def mergeObjs (a b : DepMap) : DepMap :=
  a.map (fun p => (p.1, (getAssoc b p.1).getD p.2)) ++
    b.filter (fun p => (getAssoc a p.1).isNone)

/-- Rewrite the entry for `k` when present and truthy (JS
    `packageJson.dependencies && packageJson.dependencies[depName]`). -/
def updTruthy (m : DepMap) (k v : List Char) : DepMap :=
  match getAssoc m k with
  | some old => if old.isEmpty then m else setAssoc m k v
  | none => m

/-- One iteration of the current driver's bump loop for entry `e`:
    resolution failures and `semver` parse errors are swallowed;
    `semver.gt(latest, cleanCurrent)` gates the rewrite. -/
def bumpEntry (reg : Registry) (st : DepMap × DepMap × Nat) (e : List Char × List Char) :
    DepMap × DepMap × Nat :=
  match reg e.1 with
  | none => st
  | some latest =>
    match parseSemver latest, parseSemver (stripRange e.2) with
    | some lv, some cv =>
      if semverGt lv cv then
        (updTruthy st.1 e.1 ('^' :: latest), updTruthy st.2.1 e.1 ('^' :: latest),
          st.2.2 + 1)
      else st
    | _, _ => st

/-- Whether the current driver's loop body counts entry `e` as updated
    (independent of the evolving maps: updates change values, not keys). -/
def bumpUpdates (reg : Registry) (e : List Char × List Char) : Bool :=
  match reg e.1 with
  | none => false
  | some latest =>
    match parseSemver latest, parseSemver (stripRange e.2) with
    | some lv, some cv => semverGt lv cv
    | _, _ => false

/-- Current driver `bumpDependencies`: fold the loop body over the merged
    view; returns the rewritten maps and `updatedCount`. -/
def bumpDependencies (deps devDeps : DepMap) (reg : Registry) : DepMap × DepMap × Nat :=
  (mergeObjs deps devDeps).foldl (bumpEntry reg) (deps, devDeps, 0)

/-- One iteration of the legacy driver's bump loop: rewrite whenever the
    resolved latest differs *as a string* from the raw declared value. -/
def legacyBumpEntry (reg : Registry) (st : DepMap × DepMap × Nat)
    (e : List Char × List Char) : DepMap × DepMap × Nat :=
  match reg e.1 with
  | none => st
  | some latest =>
    if latest ≠ e.2 then
      (updTruthy st.1 e.1 ('^' :: latest), updTruthy st.2.1 e.1 ('^' :: latest),
        st.2.2 + 1)
    else st

/-- Legacy driver `bumpDependencies`. -/
def legacyBumpDependencies (deps devDeps : DepMap) (reg : Registry) :
    DepMap × DepMap × Nat :=
  (mergeObjs deps devDeps).foldl (legacyBumpEntry reg) (deps, devDeps, 0)

/-- A manifest declaring `foo: ^2.0.0` as its only dependency. -/
def sampleDeps : DepMap := [("foo".data, "^2.0.0".data)]

/-- A registry on which `foo@latest` resolves to `1.0.0` — *older* than the
    declared `^2.0.0`. -/
def sampleReg : Registry := fun n => if n = "foo".data then some "1.0.0".data else none

/-- A manifest carrying the same name in both maps: `bar: ^1.0.0` under
    dependencies and `bar: ~1.2.0` under devDependencies. -/
def sharedDeps : DepMap := [("bar".data, "^1.0.0".data)]

def sharedDevDeps : DepMap := [("bar".data, "~1.2.0".data)]

/-- A registry on which `bar@latest` resolves to `2.0.0`. -/
def sharedReg : Registry := fun n => if n = "bar".data then some "2.0.0".data else none

/-! ### Produced version format (scripts/depup.mjs line 458,
scripts/fix-version-format.mjs lines 138-162) -/

def depupSep : List Char := ['-', 'd', 'e', 'p', 'u', 'p', '.']

/-- `packageJson.version = ${baseVersion}-depup.${revision}`. -/
def produceVersion (v : List Char) (i : Nat) : List Char := v ++ depupSep ++ toDec i

/-- Modelled from the spec: the source produces `-depup.` versions but holds
    no standalone parser for them; the spec's round-trip property reads the
    base version and index back from the produced string (the digit suffix
    after the last `-depup.` separator). -/
def parseProducedVersion (s : List Char) : Option (List Char × Nat) :=
  let r := s.reverse
  let ds := r.takeWhile Char.isDigit
  if ds.isEmpty then none
  else
    let rest := r.drop ds.length
    if depupSep.reverse.isPrefixOf rest then
      some ((rest.drop depupSep.length).reverse, ofDec ds.reverse)
    else none

/-- `version.replace(/_(\d+)$/, '-depup.$1')`: when the string ends in an
    underscore followed by one or more digits, replace that suffix with
    `-depup.` and the digits; otherwise leave the string unchanged. -/
def regexFixTrailing (s : List Char) : List Char :=
  let r := s.reverse
  let ds := r.takeWhile Char.isDigit
  if ds.isEmpty then s
  else
    match r.drop ds.length with
    | '_' :: rest => rest.reverse ++ depupSep ++ ds.reverse
    | _ => s

/-- fix-version-format.mjs `fixPackageJson`: versions without `_` are left
    alone, others get the trailing-suffix substitution. -/
def fixPackageVersion (s : List Char) : List Char :=
  if s.contains '_' then regexFixTrailing s else s

/-! ### Import-test harness (scripts/depup.mjs `testPackage`, current driver
lines 649-820 and legacy driver lines 156-228)

The runs are modelled by the success/failure of each shell step; the value
is the returned boolean together with the trace of `.test-temp` filesystem
events (creation and removal). -/

inductive FsEv
  | mkTemp
  | rmTemp
deriving DecidableEq

structure TestEnv where
  ownInstall1 : Bool
  ownInstall2 : Bool
  ownInstall3 : Bool
  testInstall1 : Bool
  testInstall2 : Bool
  testInstall3 : Bool
  impOk : Bool
deriving DecidableEq

/-- An ordered chain of install attempts succeeds when any attempt does;
    individual failures are swallowed. -/
def anyOk (ms : List Bool) : Bool := ms.any id

/-- Current driver `testPackage`: both install phases swallow failures of
    every method; the harness directory is created, the import test may
    throw, and the `finally` block removes the directory on both the success
    and the failure continuation; the outer catch turns the throw into
    `false`. -/
def currentTestPackage (e : TestEnv) : Bool × List FsEv :=
  let _ownOk := anyOk [e.ownInstall1, e.ownInstall2, e.ownInstall3]
  let created := [FsEv.mkTemp]
  let _testOk := anyOk [e.testInstall1, e.testInstall2, e.testInstall3]
  let imported : Except Unit Unit := if e.impOk then .ok () else .error ()
  let evs := created ++ [FsEv.rmTemp]
  match imported with
  | .ok _ => (true, evs)
  | .error _ => (false, evs)

structure LegacyTestEnv where
  ownInstall : Bool
  testInstall : Bool
  impOk : Bool
deriving DecidableEq

/-- Legacy driver `testPackage`: a single try/catch with the removal only on
    the success path; a throw from the package install happens before the
    harness directory exists, while a throw from the test install or from
    the import test leaves the directory behind. -/
def legacyTestPackage (e : LegacyTestEnv) : Bool × List FsEv :=
  if !e.ownInstall then (false, [])
  else if !e.testInstall then (false, [FsEv.mkTemp])
  else if !e.impOk then (false, [FsEv.mkTemp])
  else (true, [FsEv.mkTemp, FsEv.rmTemp])

/-! ## Theorems -/

/-! ### Decimal digits -/

theorem toDec_ne_nil (n : Nat) : toDec n ≠ [] := by
  rw [toDec]
  by_cases h : n < 10 <;> simp [h]

theorem digitCh_toNat (n : Nat) (h : n < 10) : (digitCh n).toNat = 48 + n := by
  interval_cases n <;> decide

theorem digitCh_isDigit (n : Nat) (h : n < 10) : (digitCh n).isDigit = true := by
  interval_cases n <;> decide

/-- Every character of a decimal rendering is a digit. -/
theorem toDec_all_digits (n : Nat) : ∀ c ∈ toDec n, c.isDigit = true := by
  induction n using Nat.strong_induction_on with
  | _ n ih =>
    intro c hc
    rw [toDec] at hc
    by_cases h : n < 10
    · simp only [h, dite_true, List.mem_singleton] at hc
      subst hc; exact digitCh_isDigit n h
    · simp only [h, dite_false] at hc
      rcases List.mem_append.mp hc with h1 | h1
      · exact ih _ (Nat.div_lt_self
          (Nat.lt_of_lt_of_le (by norm_num) (Nat.le_of_not_lt h)) (by norm_num)) c h1
      · simp only [List.mem_singleton] at h1
        subst h1
        exact digitCh_isDigit _ (Nat.mod_lt _ (by norm_num))

theorem ofDec_append (xs ys : List Char) :
    ofDec (xs ++ ys) = ys.foldl (fun a c => a * 10 + (c.toNat - 48)) (ofDec xs) := by
  simp [ofDec, List.foldl_append]

/-- Round trip: reading back the decimal rendering recovers the number. -/
theorem ofDec_toDec (n : Nat) : ofDec (toDec n) = n := by
  induction n using Nat.strong_induction_on with
  | _ n ih =>
    rw [toDec]
    by_cases h : n < 10
    · simp only [h, dite_true]
      simp [ofDec, digitCh_toNat n h]
    · simp only [h, dite_false]
      rw [ofDec_append]
      have hd : n / 10 < n :=
        Nat.div_lt_self (Nat.lt_of_lt_of_le (by norm_num) (Nat.le_of_not_lt h)) (by norm_num)
      rw [ih _ hd]
      simp [digitCh_toNat _ (Nat.mod_lt n (by norm_num))]
      omega

/-! ### parseInt and the revision allocator -/

theorem jsSpace_toNat_lt (c : Char) (h : jsSpace c = true) : c.toNat < 48 := by
  simp only [jsSpace, Bool.or_eq_true, decide_eq_true_eq] at h
  rcases h with ((((h | h) | h) | h) | h) | h <;> subst h <;> decide

theorem isDigit_not_jsSpace (c : Char) (h : c.isDigit = true) : jsSpace c = false := by
  by_contra hcon
  have h1 := jsSpace_toNat_lt c (by revert hcon; cases jsSpace c <;> simp)
  simp only [Char.isDigit, decide_eq_true_eq, Bool.and_eq_true] at h
  have h2 : 48 ≤ c.toNat := h.1
  omega

theorem takeWhile_all {p : Char → Bool} {l : List Char} (h : ∀ c ∈ l, p c = true) :
    l.takeWhile p = l :=
  List.takeWhile_eq_self_iff.mpr h

/-- `parseInt` reads back a plain decimal rendering. -/
theorem jsParseInt_toDec (n : Nat) : jsParseInt (toDec n) = some (Int.ofNat n) := by
  obtain ⟨c, cs, hc⟩ : ∃ c cs, toDec n = c :: cs := by
    cases h : toDec n with
    | nil => exact absurd h (toDec_ne_nil n)
    | cons c cs => exact ⟨c, cs, rfl⟩
  have hdig : ∀ x ∈ toDec n, Char.isDigit x = true := toDec_all_digits n
  have hcd : c.isDigit = true := hdig c (by rw [hc]; exact List.mem_cons_self c cs)
  have hds : (toDec n).dropWhile jsSpace = toDec n := by
    rw [hc, List.dropWhile_cons, isDigit_not_jsSpace c hcd]
    simp
  have hcn1 : c ≠ '-' := by intro h; rw [h] at hcd; exact absurd hcd (by decide)
  have hcn2 : c ≠ '+' := by intro h; rw [h] at hcd; exact absurd hcd (by decide)
  rw [jsParseInt, hds, hc]
  simp only [hcn1, if_false, hcn2]
  rw [← hc, digitsVal]
  simp only [takeWhile_all hdig]
  simp [List.isEmpty_iff, toDec_ne_nil n, ofDec_toDec n]

/-- The conventional directory name `rev-i` parses back to `i`. -/
theorem parseRevEntry_revName (i : Nat) :
    parseRevEntry ⟨revName (Int.ofNat i), true⟩ = some (Int.ofNat i) := by
  have hpre : revMarker.isPrefixOf (revName (Int.ofNat i)) = true :=
    List.isPrefixOf_iff_prefix.mpr (List.prefix_append revMarker (intDec (Int.ofNat i)))
  have hdrop : (revName (Int.ofNat i)).drop 4 = toDec i := by
    have h := List.drop_left revMarker (intDec (Int.ofNat i))
    simp only [revMarker, List.length_cons, List.length_nil] at h
    exact h
  simp only [parseRevEntry, hpre, Bool.and_true, if_true, hdrop]
  exact jsParseInt_toDec i

theorem filterMap_parseRev_range (k : Nat) :
    ((List.range k).map (fun i => (⟨revName (Int.ofNat i), true⟩ : DirEntry))).filterMap
        parseRevEntry
      = (List.range k).map (fun i => Int.ofNat i) := by
  induction k with
  | zero => rfl
  | succ j ih =>
    rw [List.range_succ]
    simp only [List.map_append, List.filterMap_append, ih, List.map_cons, List.map_nil,
      List.filterMap_cons, parseRevEntry_revName]
    rfl

theorem nextRevision_of_filterMap (entries : List DirEntry) (c : Int) (cs : List Int)
    (h : entries.filterMap parseRevEntry = c :: cs) :
    nextRevision entries = cs.foldl max c + 1 := by
  rw [nextRevision, h]

theorem foldl_max_range (k : Nat) :
    ∀ c cs, (List.range (k + 1)).map (fun i => Int.ofNat i) = c :: cs →
      cs.foldl max c = Int.ofNat k := by
  induction k with
  | zero =>
    intro c cs h
    simp only [List.range_succ, List.range_zero, List.nil_append, List.map_cons,
      List.map_nil, List.cons.injEq] at h
    rw [← h.1, ← h.2]
    rfl
  | succ j ih =>
    intro c cs h
    obtain ⟨c', cs', hc⟩ : ∃ c' cs',
        (List.range (j + 1)).map (fun i => Int.ofNat i) = c' :: cs' := by
      cases h0 : (List.range (j + 1)).map (fun i => Int.ofNat i) with
      | nil => simp [List.range_succ] at h0
      | cons x xs => exact ⟨x, xs, rfl⟩
    rw [List.range_succ, List.map_append, hc, List.map_cons, List.map_nil,
      List.cons_append, List.cons.injEq] at h
    rw [← h.1, ← h.2, List.foldl_append, ih c' cs' hc]
    simp only [List.foldl]
    have hle : Int.ofNat j ≤ Int.ofNat (j + 1) := Int.ofNat_le.mpr (Nat.le_succ j)
    exact max_eq_right hle

/-- The allocator run against a listing `rev-0 … rev-(k-1)` returns `k`. -/
theorem nextRevision_range (k : Nat) :
    nextRevision ((List.range k).map (fun i => (⟨revName (Int.ofNat i), true⟩ : DirEntry)))
      = Int.ofNat k := by
  cases k with
  | zero => rfl
  | succ j =>
    obtain ⟨c, cs, hc⟩ : ∃ c cs,
        (List.range (j + 1)).map (fun i => Int.ofNat i) = c :: cs := by
      cases h0 : (List.range (j + 1)).map (fun i => Int.ofNat i) with
      | nil => simp [List.range_succ] at h0
      | cons x xs => exact ⟨x, xs, rfl⟩
    rw [nextRevision_of_filterMap _ c cs (by rw [filterMap_parseRev_range]; exact hc)]
    rw [foldl_max_range j c cs hc]
    rfl

theorem allocStates_fst (N : Nat) :
    (allocStates N).1 = (List.range N).map (fun i => revName (Int.ofNat i)) := by
  induction N with
  | zero => rfl
  | succ k ih =>
    simp only [allocStates, ih]
    have h2 : ((List.range k).map fun i => revName (Int.ofNat i)).map
        (fun nm => (⟨nm, true⟩ : DirEntry))
        = (List.range k).map (fun i => (⟨revName (Int.ofNat i), true⟩ : DirEntry)) := by
      rw [List.map_map]; rfl
    rw [h2, nextRevision_range, List.range_succ, List.map_append]
    rfl

theorem allocStates_snd (N : Nat) :
    (allocStates N).2 = (List.range N).map (fun i => Int.ofNat i) := by
  induction N with
  | zero => rfl
  | succ k ih =>
    simp only [allocStates, ih, allocStates_fst k]
    have h2 : ((List.range k).map fun i => revName (Int.ofNat i)).map
        (fun nm => (⟨nm, true⟩ : DirEntry))
        = (List.range k).map (fun i => (⟨revName (Int.ofNat i), true⟩ : DirEntry)) := by
      rw [List.map_map]; rfl
    rw [h2, nextRevision_range, List.range_succ, List.map_append]
    rfl

/-! ### Association maps -/

theorem getAssoc_set_self {K V : Type} [DecidableEq K] (m : List (K × V)) (k : K) (v : V) :
    getAssoc (setAssoc m k v) k = some v := by
  induction m with
  | nil => simp [setAssoc, getAssoc]
  | cons p t ih =>
    obtain ⟨k', v'⟩ := p
    by_cases h : k' = k
    · simp [setAssoc, h, getAssoc]
    · simp [setAssoc, h, getAssoc, ih]

theorem getAssoc_set_other {K V : Type} [DecidableEq K] (m : List (K × V)) (k k' : K)
    (v : V) (h : k' ≠ k) : getAssoc (setAssoc m k v) k' = getAssoc m k' := by
  induction m with
  | nil =>
    simp only [setAssoc, getAssoc, if_neg (Ne.symm h)]
  | cons p t ih =>
    obtain ⟨k0, v0⟩ := p
    by_cases h0 : k0 = k
    · subst h0
      simp only [setAssoc, if_pos rfl, getAssoc]
      rw [if_neg (Ne.symm h), if_neg (Ne.symm h)]
    · simp only [setAssoc, h0, if_false, getAssoc]
      by_cases h1 : k0 = k'
      · simp [h1]
      · simp [h1, ih]

/-- After the pipeline's `updateIntegrityData`, the revision's record is
    exactly the fresh `{version, timestamp, status}` object. -/
theorem depupUpdate_entry (file : IntegrityFile) (bv rk pv : String) (now : Nat)
    (st : String) :
    getAssoc ((getAssoc (depupUpdateIntegrityData file bv rk pv now st) bv).getD []) rk
      = some ⟨some pv, some now, some st, none⟩ := by
  rw [depupUpdateIntegrityData]
  rw [getAssoc_set_self, Option.getD_some, getAssoc_set_self]

theorem statusAt_depupUpdate (file : IntegrityFile) (bv rk pv : String) (now : Nat)
    (st : String) :
    statusAt (depupUpdateIntegrityData file bv rk pv now st) bv rk = some st := by
  rw [statusAt, depupUpdate_entry]
  rfl

/-! ### Claim theorems: publish gate and recorded statuses -/

/-- C1: the prepared-revision pipeline invokes the publish step iff
    publishing was requested and the revision index is 0 or the bump pass
    updated at least one dependency; with publishing not requested nothing
    is ever published; and a gate-decided skip completes the run normally,
    recording the terminal status `'skipped'` rather than failing. -/
theorem publish_gate_decision :
    ∀ (req : Bool) (rev upd : Nat),
      (publishInvoked req rev upd = true ↔ req = true ∧ (rev = 0 ∨ 0 < upd))
      ∧ publishInvoked false rev upd = false
      ∧ (req = true → publishInvoked req rev upd = false →
          ∀ (file : IntegrityFile) (bv rk pv : String) (now : Nat) (pubOk : Bool),
            currentRun file bv rk pv now req pubOk rev upd
              = some (depupUpdateIntegrityData file bv rk pv now "skipped")) := by
  intro req rev upd
  refine ⟨?_, ?_, ?_⟩
  · cases req <;>
      simp [publishInvoked, gateCondition, beq_iff_eq, Bool.or_eq_true,
        decide_eq_true_eq]
  · simp [publishInvoked]
  · intro hreq hginv file bv rk pv now pubOk
    subst hreq
    simp [currentRun, hginv, recordedStatus]

/-- Witness for C1: a requested run at revision 1 with no dependency
    updates is gate-skipped and records `'skipped'`. -/
theorem publish_gate_decision_witness :
    currentRun [] "1.0.0" "1" "1.0.0-depup.1" 0 true true 1 0
      = some (depupUpdateIntegrityData [] "1.0.0" "1" "1.0.0-depup.1" 0 "skipped") :=
  (publish_gate_decision true 1 0).2.2 rfl (by decide) [] "1.0.0" "1" "1.0.0-depup.1" 0 true

/-- C2: recording a pipeline outcome does *not* preserve the vote-derived
    snapshot: the write assigns a fresh `{version, timestamp, status}`
    object to the revision key, deleting the `integrity` sub-object the
    vote writer had stored there (records of other revisions are kept). -/
theorem record_outcome_clobbers_snapshot :
    integrityAt sampleIntegrityFile "1.0.0" "0" = some sampleSnapA
    ∧ integrityAt
        (depupUpdateIntegrityData sampleIntegrityFile "1.0.0" "0" "1.0.0-depup.0" 9
          "prepared") "1.0.0" "0" = none
    ∧ getAssoc ((getAssoc
        (depupUpdateIntegrityData sampleIntegrityFile "1.0.0" "0" "1.0.0-depup.0" 9
          "prepared") "1.0.0").getD []) "1"
      = getAssoc ((getAssoc sampleIntegrityFile "1.0.0").getD []) "1" := by
  refine ⟨rfl, ?_, ?_⟩ <;> decide

/-- C6: the legacy driver records status `'published'` even for a run in
    which publishing was never requested; the current driver records
    `'prepared'` when not requested, `'skipped'` on a gate skip, and writes
    nothing at all when the invoked publish step fails. -/
theorem published_status_requires_publish :
    statusAt ((legacyRun [] "4.17.21" "0" 3 false true).getD []) "4.17.21" "0"
        = some "published"
    ∧ (∀ (file : IntegrityFile) (bv rk pv : String) (now rev upd : Nat) (pubOk : Bool),
        (currentRun file bv rk pv now false pubOk rev upd).map
            (fun f => statusAt f bv rk) = some (some "prepared"))
    ∧ (∀ (file : IntegrityFile) (bv rk pv : String) (now rev upd : Nat),
        gateCondition rev upd = false →
        (currentRun file bv rk pv now true true rev upd).map
            (fun f => statusAt f bv rk) = some (some "skipped"))
    ∧ (∀ (file : IntegrityFile) (bv rk pv : String) (now rev upd : Nat),
        publishInvoked true rev upd = true →
        currentRun file bv rk pv now true false rev upd = none) := by
  refine ⟨by decide, ?_, ?_, ?_⟩
  · intro file bv rk pv now rev upd pubOk
    simp [currentRun, publishInvoked, recordedStatus, statusAt_depupUpdate]
  · intro file bv rk pv now rev upd hgate
    simp [currentRun, publishInvoked, hgate, recordedStatus, statusAt_depupUpdate]
  · intro file bv rk pv now rev upd hinv
    simp [currentRun, hinv]

/-- Witness for C6's universally quantified conjuncts at concrete runs. -/
theorem published_status_requires_publish_witness :
    (currentRun [] "1.0.0" "0" "1.0.0-depup.0" 2 false true 0 0).map
        (fun f => statusAt f "1.0.0" "0") = some (some "prepared")
    ∧ (currentRun [] "1.0.0" "1" "1.0.0-depup.1" 2 true true 1 0).map
        (fun f => statusAt f "1.0.0" "1") = some (some "skipped")
    ∧ currentRun [] "1.0.0" "0" "1.0.0-depup.0" 2 true false 0 0 = none :=
  ⟨published_status_requires_publish.2.1 [] "1.0.0" "0" "1.0.0-depup.0" 2 0 0 true,
   published_status_requires_publish.2.2.1 [] "1.0.0" "1" "1.0.0-depup.1" 2 1 0
     (by decide),
   published_status_requires_publish.2.2.2 [] "1.0.0" "0" "1.0.0-depup.0" 2 0 0
     (by decide)⟩

/-- C7: the sandboxed validator rejects a manifest carrying a disallowed
    lifecycle hook, but the pipeline's publish path never consults the
    manifest: a requested revision-0 run over a hook-carrying manifest
    publishes and records `'published'`, and no writer ever records a
    `'failed'` status. -/
theorem publish_validation_gap :
    validateProcessedPackage ⟨"@depup/lodash", [("postinstall", "node evil.js")]⟩
        = .error "Dangerous script detected: postinstall"
    ∧ runPublishPhase ⟨"@depup/lodash", [("postinstall", "node evil.js")]⟩ true true true
        true 0 0 = some (true, "published")
    ∧ (∀ (req : Bool) (rev upd : Nat), recordedStatus req rev upd ≠ "failed") := by
  refine ⟨by decide, by decide, ?_⟩
  intro req rev upd
  cases req <;> simp only [recordedStatus, if_true, if_false] <;> split_ifs <;> decide

/-- C9: the current import-test harness removes `.test-temp` on every
    outcome (the trace is create-then-remove whatever the install and the
    test results are, and the returned flag mirrors the import result),
    while the legacy harness leaves the directory behind when the import
    test fails (removal happens only on its all-success path). -/
theorem test_harness_cleanup :
    (∀ e : TestEnv, (currentTestPackage e).2 = [FsEv.mkTemp, FsEv.rmTemp]
        ∧ (currentTestPackage e).1 = e.impOk)
    ∧ legacyTestPackage ⟨true, true, false⟩ = (false, [FsEv.mkTemp])
    ∧ legacyTestPackage ⟨true, true, true⟩ = (true, [FsEv.mkTemp, FsEv.rmTemp]) := by
  refine ⟨?_, by decide, by decide⟩
  intro e
  cases he : e.impOk <;> simp [currentTestPackage, he]

/-- C3: the allocator ignores directory entries that do not parse to a
    revision number (missing `rev-` marker, non-directory, or NaN suffix),
    and — since each run creates `rev-${revision}` after allocating — a
    sequence of `N` allocate-then-create rounds from an empty base-version
    directory returns exactly the indices `0 … N-1` in call order. -/
theorem revision_allocation_sequence :
    (∀ (entries : List DirEntry) (e : DirEntry), parseRevEntry e = none →
        nextRevision (e :: entries) = nextRevision entries)
    ∧ ∀ N : Nat, (allocStates N).2 = (List.range N).map (fun i => Int.ofNat i) := by
  constructor
  · intro entries e h
    simp [nextRevision, List.filterMap_cons, h]
  · exact allocStates_snd

/-- Witness for C3: a malformed entry is ignored, and three rounds allocate
    `0, 1, 2`. -/
theorem revision_allocation_sequence_witness :
    nextRevision [⟨['x'], true⟩] = nextRevision []
    ∧ (allocStates 3).2 = [Int.ofNat 0, Int.ofNat 1, Int.ofNat 2] :=
  ⟨revision_allocation_sequence.1 [] ⟨['x'], true⟩ (by decide),
   by rw [revision_allocation_sequence.2 3]; decide⟩

/-! ### Claim theorems: integrity scoring -/

/-- The meter stores the recomputed snapshot under the revision's
    `integrity` key. -/
theorem integrityAt_meterUpdate (file : IntegrityFile) (version revision : String)
    (vd : VoteData) (now : Nat) :
    integrityAt (meterUpdateIntegrityData file version revision vd now) version revision
      = some (meterSnap vd now) := by
  rw [integrityAt, meterUpdateIntegrityData]
  rw [getAssoc_set_self, Option.getD_some, getAssoc_set_self]
  rfl

/-- C4 counterexample: appending the fortieth vote to a record of 22 up and
    17 neutral votes yields counts `(23, 0, 17)`; the meter evaluates
    `23 / 40 * 100` in binary64, giving `57.49999999999999…`, and stores
    `Math.round` of it, 57 — while the claimed exact formula
    `round(((23 − 0) / 40) * 100) = round(57.5)` gives 58. -/
theorem integrity_score_double_rounding :
    (applyVote ⟨22, 0, 17, []⟩ .up "i" "" "u" 0).up = 23
    ∧ (applyVote ⟨22, 0, 17, []⟩ .up "i" "" "u" 0).down = 0
    ∧ (applyVote ⟨22, 0, 17, []⟩ .up "i" "" "u" 0).neutral = 17
    ∧ (meterSnap (applyVote ⟨22, 0, 17, []⟩ .up "i" "" "u" 0) 0).score = 57
    ∧ specScore 23 0 17 = 58 := by
  refine ⟨by decide, by decide, by decide, by decide, ?_⟩
  norm_num [specScore, round_eq]

/-- C4 (amended): the snapshot stored whenever a vote is appended carries
    the score `Math.round` of the *binary64* evaluation of
    `((up − down) / total) * 100` over the new counts — which is 0 when the
    total is 0 and agrees with the spec's exact formula at its boundary
    scenarios `(10,0,0) ↦ 100`, `(8,2,0) ↦ 60`, `(5,5,0) ↦ 0`,
    `(2,8,0) ↦ -60`, `(0,0,0) ↦ 0`, though not at every vote multiset. -/
theorem integrity_score_fp :
    (∀ (votes : VotesFile) (file : IntegrityFile) (version revision : String)
        (dir : VoteDir) (id desc user : String) (now : Nat),
      integrityAt
          (meterUpdateIntegrityData file version revision
            (recordVote votes version revision dir id desc user now).2 now)
          version revision
        = some (meterSnap (recordVote votes version revision dir id desc user now).2 now))
    ∧ (∀ (vd : VoteData) (now : Nat), vd.up + vd.down + vd.neutral = 0 →
        (meterSnap vd now).score = 0)
    ∧ (meterSnap ⟨10, 0, 0, []⟩ 0).score = 100
    ∧ (meterSnap ⟨8, 2, 0, []⟩ 0).score = 60
    ∧ (meterSnap ⟨5, 5, 0, []⟩ 0).score = 0
    ∧ (meterSnap ⟨2, 8, 0, []⟩ 0).score = -60
    ∧ (meterSnap ⟨0, 0, 0, []⟩ 0).score = 0 := by
  refine ⟨?_, ?_, by decide, by decide, by decide, by decide, by decide⟩
  · intro votes file version revision dir id desc user now
    rw [integrityAt_meterUpdate]
  · intro vd now h
    obtain ⟨hu, hd, hn⟩ : vd.up = 0 ∧ vd.down = 0 ∧ vd.neutral = 0 := by omega
    cases vd with
    | mk up down neutral details =>
      simp only at hu hd hn
      subst hu; subst hd; subst hn
      rfl

/-- Witness for C4's amended theorem at a concrete fresh vote and at the
    empty vote record. -/
theorem integrity_score_fp_witness :
    integrityAt
        (meterUpdateIntegrityData [] "1.0.0" "0"
          (recordVote [] "1.0.0" "0" .up "i" "" "u" 3).2 3) "1.0.0" "0"
      = some (meterSnap (recordVote [] "1.0.0" "0" .up "i" "" "u" 3).2 3)
    ∧ (meterSnap ⟨0, 0, 0, []⟩ 1).score = 0 :=
  ⟨integrity_score_fp.1 [] [] "1.0.0" "0" .up "i" "" "u" 3,
   integrity_score_fp.2.1 ⟨0, 0, 0, []⟩ 1 (by decide)⟩

/-! ### Claim theorems: produced version format -/

theorem takeWhile_append_of_all {p : Char → Bool} {xs ys : List Char}
    (h : ∀ c ∈ xs, p c = true) : (xs ++ ys).takeWhile p = xs ++ ys.takeWhile p := by
  rw [List.takeWhile_append, takeWhile_all h, if_pos rfl]

theorem reverse_all_digits (i : Nat) : ∀ c ∈ (toDec i).reverse, c.isDigit = true :=
  fun c hc => toDec_all_digits i c (List.mem_reverse.mp hc)

theorem takeWhile_isDigit_sep (v : List Char) :
    (depupSep.reverse ++ v).takeWhile Char.isDigit = [] := by
  rw [show depupSep.reverse ++ v = '.' :: (['p', 'u', 'p', 'e', 'd', '-'] ++ v) from rfl]
  exact List.takeWhile_cons_of_neg (by decide)

/-- Parsing a produced version recovers the base version and the index. -/
theorem parseProduced_produce (v : List Char) (i : Nat) :
    parseProducedVersion (produceVersion v i) = some (v, i) := by
  have hrev : (produceVersion v i).reverse
      = (toDec i).reverse ++ (depupSep.reverse ++ v.reverse) := by
    simp [produceVersion, List.reverse_append, List.append_assoc]
  have hds : ((produceVersion v i).reverse).takeWhile Char.isDigit = (toDec i).reverse := by
    rw [hrev, takeWhile_append_of_all (reverse_all_digits i), takeWhile_isDigit_sep,
      List.append_nil]
  have hpre : depupSep.reverse.isPrefixOf (depupSep.reverse ++ v.reverse) = true :=
    List.isPrefixOf_iff_prefix.mpr (List.prefix_append _ _)
  rw [parseProducedVersion]
  simp only [hds]
  simp only [hrev]
  simp only [List.drop_left, hpre, if_true, List.isEmpty_iff, List.reverse_eq_nil_iff]
  rw [if_neg (toDec_ne_nil i)]
  rw [show depupSep.length = depupSep.reverse.length from rfl, List.drop_left,
    List.reverse_reverse, List.reverse_reverse, ofDec_toDec]

/-- The repair pass rewrites a trailing `_digits` suffix to the produced
    format. -/
theorem fix_underscore (v : List Char) (i : Nat) :
    fixPackageVersion (v ++ '_' :: toDec i) = produceVersion v i := by
  have hmem : '_' ∈ v ++ '_' :: toDec i :=
    List.mem_append.mpr (Or.inr (List.mem_cons_self _ _))
  have hcontains : (v ++ '_' :: toDec i).contains '_' = true := List.elem_iff.mpr hmem
  have hrev : (v ++ '_' :: toDec i).reverse = (toDec i).reverse ++ ('_' :: v.reverse) := by
    simp [List.reverse_append, List.reverse_cons, List.append_assoc]
  have hds : ((v ++ '_' :: toDec i).reverse).takeWhile Char.isDigit
      = (toDec i).reverse := by
    rw [hrev, takeWhile_append_of_all (reverse_all_digits i),
      List.takeWhile_cons_of_neg (by decide), List.append_nil]
  rw [fixPackageVersion, if_pos hcontains, regexFixTrailing]
  simp only [hds]
  simp only [hrev]
  simp only [List.drop_left, List.isEmpty_iff, List.reverse_eq_nil_iff]
  rw [if_neg (toDec_ne_nil i)]
  simp [produceVersion, List.reverse_reverse]

/-- C8: `produceVersion` is the pure map `(v, i) ↦ v ++ "-depup." ++ i`;
    parsing the produced string recovers exactly `v` and `i`; and the
    repair pass turns the malformed `v_i` form into `produceVersion v i`. -/
theorem produce_version_roundtrip :
    ∀ (v : List Char) (i : Nat),
      produceVersion v i = v ++ depupSep ++ toDec i
      ∧ parseProducedVersion (produceVersion v i) = some (v, i)
      ∧ fixPackageVersion (v ++ '_' :: toDec i) = produceVersion v i :=
  fun v i => ⟨rfl, parseProduced_produce v i, fix_underscore v i⟩

/-! ### Claim theorems: dependency bump -/

theorem bumpEntry_no_update (reg : Registry) (st : DepMap × DepMap × Nat)
    (e : List Char × List Char) (h : bumpUpdates reg e = false) :
    bumpEntry reg st e = st := by
  cases hr : reg e.1 with
  | none => simp [bumpEntry, hr]
  | some latest =>
    cases hl : parseSemver latest with
    | none => simp [bumpEntry, hr, hl]
    | some lv =>
      cases hc : parseSemver (stripRange e.2) with
      | none => simp [bumpEntry, hr, hl, hc]
      | some cv =>
        have hgt : semverGt lv cv = false := by
          have h2 := h
          rw [bumpUpdates, hr] at h2
          simpa [hl, hc] using h2
        simp [bumpEntry, hr, hl, hc, hgt]

theorem foldl_bump_no_update (reg : Registry) (l : List (List Char × List Char))
    (h : ∀ e ∈ l, bumpUpdates reg e = false) :
    ∀ st : DepMap × DepMap × Nat, l.foldl (bumpEntry reg) st = st := by
  induction l with
  | nil => intro st; rfl
  | cons e t ih =>
    intro st
    rw [List.foldl_cons, bumpEntry_no_update reg st e (h e (List.mem_cons_self e t))]
    exact ih (fun x hx => h x (List.mem_cons_of_mem e hx)) st

/-- C5: when no merged dependency entry resolves to a strictly newer
    `@latest` version under the semantic-version comparison, the current
    driver's bump pass leaves the manifest untouched and counts zero
    updates; but the legacy driver's bump pass compares by plain string
    inequality against the raw declared range and rewrites
    `foo: ^2.0.0` to `^1.0.0` when `foo@latest` resolves to the *older*
    `1.0.0` — a downgrade the claim rules out. -/
theorem bump_no_downgrade_divergence :
    (∀ (deps devDeps : DepMap) (reg : Registry),
        (∀ e ∈ mergeObjs deps devDeps, bumpUpdates reg e = false) →
        bumpDependencies deps devDeps reg = (deps, devDeps, 0))
    ∧ bumpDependencies sampleDeps [] sampleReg = (sampleDeps, [], 0)
    ∧ bumpUpdates sampleReg ("foo".data, "^2.0.0".data) = false
    ∧ legacyBumpDependencies sampleDeps [] sampleReg
        = ([("foo".data, "^1.0.0".data)], [], 1) := by
  refine ⟨?_, by decide, by decide, by decide⟩
  intro deps devDeps reg h
  exact foldl_bump_no_update reg (mergeObjs deps devDeps) h (deps, devDeps, 0)

/-- Witness for C5: the no-update clause applied to the concrete manifest
    whose only dependency resolves to an older latest. -/
theorem bump_no_downgrade_divergence_witness :
    bumpDependencies sampleDeps [] sampleReg = (sampleDeps, [], 0) :=
  bump_no_downgrade_divergence.1 sampleDeps [] sampleReg (by decide)

theorem getAssoc_some_mem {K V : Type} [DecidableEq K] (m : List (K × V)) (k : K) (v : V)
    (h : getAssoc m k = some v) : (k, v) ∈ m := by
  induction m with
  | nil => simp [getAssoc] at h
  | cons p t ih =>
    obtain ⟨k0, v0⟩ := p
    rw [getAssoc] at h
    by_cases h0 : k0 = k
    · subst h0
      rw [if_pos rfl] at h
      injection h with h
      subst h
      exact List.mem_cons_self _ _
    · rw [if_neg h0] at h
      exact List.mem_cons_of_mem _ (ih h)

/-- A present key occurs exactly once among a map with nodup keys. -/
theorem countP_key_of_getAssoc {K V : Type} [DecidableEq K] (m : List (K × V)) (k : K)
    (v : V) (hnd : (m.map Prod.fst).Nodup) (h : getAssoc m k = some v) :
    m.countP (fun e => decide (e.1 = k)) = 1 := by
  induction m with
  | nil => simp [getAssoc] at h
  | cons p t ih =>
    obtain ⟨k0, v0⟩ := p
    simp only [List.map_cons, List.nodup_cons] at hnd
    rw [getAssoc] at h
    rw [List.countP_cons]
    by_cases h0 : k0 = k
    · subst h0
      have hz : t.countP (fun e => decide (e.1 = k0)) = 0 := by
        rw [List.countP_eq_zero]
        intro e he
        simp only [decide_eq_true_eq]
        intro hek
        exact hnd.1 (hek ▸ List.mem_map_of_mem Prod.fst he)
      simp [hz]
    · rw [if_neg h0] at h
      simp [h0, ih hnd.2 h]

theorem countP_key_merge (a b : DepMap) (k : List Char) :
    (mergeObjs a b).countP (fun e => decide (e.1 = k))
      = a.countP (fun e => decide (e.1 = k))
        + (b.filter (fun p => (getAssoc a p.1).isNone)).countP
            (fun e => decide (e.1 = k)) := by
  rw [mergeObjs, List.countP_append, List.countP_map]
  rfl

/-- No entry surviving the spread's second-map filter carries a key already
    present in the first map. -/
theorem countP_key_filterPart (a b : DepMap) (k v : List Char)
    (h : getAssoc a k = some v) :
    (b.filter (fun p => (getAssoc a p.1).isNone)).countP
        (fun e => decide (e.1 = k)) = 0 := by
  rw [List.countP_eq_zero]
  intro e he
  simp only [decide_eq_true_eq]
  intro hek
  have h2 := (List.mem_filter.mp he).2
  rw [hek, h] at h2
  simp at h2

/-- A name present in both maps appears in the merged view with the
    devDependencies (second map) value. -/
theorem mem_mergeObjs_of_both (a b : DepMap) (k d0 dv : List Char)
    (ha : getAssoc a k = some d0) (hb : getAssoc b k = some dv) :
    (k, dv) ∈ mergeObjs a b := by
  rw [mergeObjs]
  apply List.mem_append.mpr
  left
  have hm := getAssoc_some_mem a k d0 ha
  have h2 := List.mem_map_of_mem (fun p => (p.1, (getAssoc b p.1).getD p.2)) hm
  simpa [hb] using h2

theorem getAssoc_updTruthy_other (m : DepMap) (k k' v : List Char) (h : k' ≠ k) :
    getAssoc (updTruthy m k v) k' = getAssoc m k' := by
  rw [updTruthy]
  cases hm : getAssoc m k with
  | none => rfl
  | some old =>
    by_cases ho : old.isEmpty
    · simp [ho]
    · simp [ho, getAssoc_set_other m k k' v h]

theorem getAssoc_updTruthy_self (m : DepMap) (k v old : List Char)
    (h : getAssoc m k = some old) (hne : old ≠ []) :
    getAssoc (updTruthy m k v) k = some v := by
  rw [updTruthy, h]
  show getAssoc (if old.isEmpty = true then m else setAssoc m k v) k = some v
  rw [if_neg (by simp [List.isEmpty_iff, hne])]
  exact getAssoc_set_self m k v

/-- Processing one merged entry leaves every other name's declared value
    untouched in both maps. -/
theorem bumpEntry_other (reg : Registry) (st : DepMap × DepMap × Nat)
    (e : List Char × List Char) (k : List Char) (h : k ≠ e.1) :
    getAssoc (bumpEntry reg st e).1 k = getAssoc st.1 k
    ∧ getAssoc (bumpEntry reg st e).2.1 k = getAssoc st.2.1 k := by
  cases hr : reg e.1 with
  | none => simp [bumpEntry, hr]
  | some latest =>
    cases hl : parseSemver latest with
    | none => simp [bumpEntry, hr, hl]
    | some lv =>
      cases hc : parseSemver (stripRange e.2) with
      | none => simp [bumpEntry, hr, hl, hc]
      | some cv =>
        by_cases hgt : semverGt lv cv
        · simp only [bumpEntry, hr, hl, hc, hgt, if_true]
          exact ⟨getAssoc_updTruthy_other _ _ _ _ h, getAssoc_updTruthy_other _ _ _ _ h⟩
        · simp [bumpEntry, hr, hl, hc, hgt]

/-- Processing the merged entry of a name present and truthy in both maps
    rewrites both declared values to `^latest`. -/
theorem bumpEntry_at_shared (reg : Registry) (st : DepMap × DepMap × Nat)
    (k dv latest d0 dv0 : List Char) (hlatest : reg k = some latest)
    (hupd : bumpUpdates reg (k, dv) = true)
    (hd : getAssoc st.1 k = some d0) (hd0 : d0 ≠ [])
    (hv : getAssoc st.2.1 k = some dv0) (hdv0 : dv0 ≠ []) :
    getAssoc (bumpEntry reg st (k, dv)).1 k = some ('^' :: latest)
    ∧ getAssoc (bumpEntry reg st (k, dv)).2.1 k = some ('^' :: latest) := by
  cases hl : parseSemver latest with
  | none => simp [bumpUpdates, hlatest, hl] at hupd
  | some lv =>
    cases hc : parseSemver (stripRange dv) with
    | none => simp [bumpUpdates, hlatest, hl, hc] at hupd
    | some cv =>
      have hgt : semverGt lv cv = true := by
        have h2 := hupd
        simp only [bumpUpdates, hlatest, hl, hc] at h2
        exact h2
      simp only [bumpEntry, hlatest, hl, hc, hgt, if_true]
      exact ⟨getAssoc_updTruthy_self _ _ _ _ hd hd0,
        getAssoc_updTruthy_self _ _ _ _ hv hdv0⟩

theorem foldl_bump_other (reg : Registry) (l : List (List Char × List Char))
    (k : List Char) (h : ∀ e ∈ l, e.1 ≠ k) :
    ∀ st : DepMap × DepMap × Nat,
      getAssoc (l.foldl (bumpEntry reg) st).1 k = getAssoc st.1 k
      ∧ getAssoc (l.foldl (bumpEntry reg) st).2.1 k = getAssoc st.2.1 k := by
  induction l with
  | nil => intro st; exact ⟨rfl, rfl⟩
  | cons e t ih =>
    intro st
    rw [List.foldl_cons]
    have hstep := bumpEntry_other reg st e k
      (fun hk => h e (List.mem_cons_self e t) hk.symm)
    obtain ⟨h1, h2⟩ := ih (fun x hx => h x (List.mem_cons_of_mem e hx)) (bumpEntry reg st e)
    exact ⟨h1.trans hstep.1, h2.trans hstep.2⟩

theorem bumpEntry_count (reg : Registry) (st : DepMap × DepMap × Nat)
    (e : List Char × List Char) :
    (bumpEntry reg st e).2.2 = st.2.2 + (if bumpUpdates reg e then 1 else 0) := by
  cases hr : reg e.1 with
  | none => simp [bumpEntry, bumpUpdates, hr]
  | some latest =>
    cases hl : parseSemver latest with
    | none => simp [bumpEntry, bumpUpdates, hr, hl]
    | some lv =>
      cases hc : parseSemver (stripRange e.2) with
      | none => simp [bumpEntry, bumpUpdates, hr, hl, hc]
      | some cv =>
        by_cases hgt : semverGt lv cv <;>
          simp [bumpEntry, bumpUpdates, hr, hl, hc, hgt]

/-- The final `updatedCount` counts exactly the merged entries whose
    resolution and comparison decide an update. -/
theorem foldl_bump_count (reg : Registry) (l : List (List Char × List Char)) :
    ∀ st : DepMap × DepMap × Nat,
      (l.foldl (bumpEntry reg) st).2.2 = st.2.2 + l.countP (bumpUpdates reg) := by
  induction l with
  | nil => intro st; simp
  | cons e t ih =>
    intro st
    rw [List.foldl_cons, List.countP_cons, ih (bumpEntry reg st e), bumpEntry_count]
    by_cases hb : bumpUpdates reg e <;> simp [hb] <;> omega

/-- Iterating the bump loop over a list containing the shared name exactly
    once (with the devDependencies value) rewrites both maps at that name. -/
theorem foldl_bump_shared (reg : Registry) (k dv latest d0 : List Char)
    (hlatest : reg k = some latest) (hupd : bumpUpdates reg (k, dv) = true)
    (hd0 : d0 ≠ []) (hdv : dv ≠ []) :
    ∀ (l : List (List Char × List Char)) (st : DepMap × DepMap × Nat),
      l.countP (fun e => decide (e.1 = k)) = 1 → (k, dv) ∈ l →
      getAssoc st.1 k = some d0 → getAssoc st.2.1 k = some dv →
      getAssoc (l.foldl (bumpEntry reg) st).1 k = some ('^' :: latest)
      ∧ getAssoc (l.foldl (bumpEntry reg) st).2.1 k = some ('^' :: latest) := by
  intro l
  induction l with
  | nil => intro st _ hm; simp at hm
  | cons e t ih =>
    intro st hc hm hsd hsv
    rw [List.countP_cons] at hc
    by_cases hek : e.1 = k
    · have hct : t.countP (fun e => decide (e.1 = k)) = 0 := by
        rw [if_pos (by simpa using hek)] at hc
        omega
      have hmt : (k, dv) ∉ t := by
        intro hin
        have hpos : 0 < t.countP (fun e => decide (e.1 = k)) :=
          List.countP_pos.mpr ⟨(k, dv), hin, by simp⟩
        omega
      have he : e = (k, dv) := by
        rcases List.mem_cons.mp hm with h | h
        · exact h.symm
        · exact absurd h hmt
      subst he
      rw [List.foldl_cons]
      have hstep := bumpEntry_at_shared reg st k dv latest d0 dv hlatest hupd hsd hd0 hsv hdv
      have hkeys : ∀ x ∈ t, x.1 ≠ k := by
        intro x hx hxk
        have hpos : 0 < t.countP (fun e => decide (e.1 = k)) :=
          List.countP_pos.mpr ⟨x, hx, by simp [hxk]⟩
        omega
      have hframe := foldl_bump_other reg t k hkeys (bumpEntry reg st (k, dv))
      exact ⟨hframe.1.trans hstep.1, hframe.2.trans hstep.2⟩
    · have hm' : (k, dv) ∈ t := by
        rcases List.mem_cons.mp hm with h | h
        · exact absurd (congrArg Prod.fst h.symm) hek
        · exact h
      have hc' : t.countP (fun e => decide (e.1 = k)) = 1 := by
        rw [if_neg (by simpa using hek)] at hc
        omega
      rw [List.foldl_cons]
      have hother := bumpEntry_other reg st e k (fun hh => hek hh.symm)
      exact ih (bumpEntry reg st e) hc' hm' (hother.1.trans hsd) (hother.2.trans hsv)

/-- C10: a name declared in both dependencies and devDependencies is
    visited once in the merged iteration with the devDependencies value
    shadowing; when its `@latest` resolves and compares strictly newer than
    that (sigil-stripped) value, both manifest entries are rewritten to
    `^latest`, and the final `updatedCount` counts merged entries — so the
    shared name contributes exactly one increment. -/
theorem shared_dependency_single_update :
    ∀ (deps devDeps : DepMap) (reg : Registry) (name d0 dv latest : List Char),
      (deps.map Prod.fst).Nodup →
      getAssoc deps name = some d0 → d0 ≠ [] →
      getAssoc devDeps name = some dv → dv ≠ [] →
      reg name = some latest →
      bumpUpdates reg (name, dv) = true →
      (mergeObjs deps devDeps).countP (fun e => decide (e.1 = name)) = 1
      ∧ (name, dv) ∈ mergeObjs deps devDeps
      ∧ getAssoc (bumpDependencies deps devDeps reg).1 name = some ('^' :: latest)
      ∧ getAssoc (bumpDependencies deps devDeps reg).2.1 name = some ('^' :: latest)
      ∧ (bumpDependencies deps devDeps reg).2.2
          = (mergeObjs deps devDeps).countP (bumpUpdates reg) := by
  intro deps devDeps reg name d0 dv latest hnd hdep hd0 hdev hdv hlatest hupd
  have hcount : (mergeObjs deps devDeps).countP (fun e => decide (e.1 = name)) = 1 := by
    rw [countP_key_merge, countP_key_of_getAssoc deps name d0 hnd hdep,
      countP_key_filterPart deps devDeps name d0 hdep]
  have hmem := mem_mergeObjs_of_both deps devDeps name d0 dv hdep hdev
  have hmaps := foldl_bump_shared reg name dv latest d0 hlatest hupd hd0 hdv
    (mergeObjs deps devDeps) (deps, devDeps, 0) hcount hmem hdep hdev
  have hcnt := foldl_bump_count reg (mergeObjs deps devDeps) (deps, devDeps, 0)
  refine ⟨hcount, hmem, hmaps.1, hmaps.2, ?_⟩
  show ((mergeObjs deps devDeps).foldl (bumpEntry reg) (deps, devDeps, 0)).2.2
      = (mergeObjs deps devDeps).countP (bumpUpdates reg)
  rw [hcnt]
  simp

/-- Witness for C10: `bar` declared `^1.0.0` in dependencies and `~1.2.0`
    in devDependencies, with `bar@latest = 2.0.0`: both entries become
    `^2.0.0` and the count is 1. -/
theorem shared_dependency_single_update_witness :
    getAssoc (bumpDependencies sharedDeps sharedDevDeps sharedReg).1 "bar".data
        = some ('^' :: "2.0.0".data)
    ∧ getAssoc (bumpDependencies sharedDeps sharedDevDeps sharedReg).2.1 "bar".data
        = some ('^' :: "2.0.0".data)
    ∧ (bumpDependencies sharedDeps sharedDevDeps sharedReg).2.2 = 1 := by
  have h := shared_dependency_single_update sharedDeps sharedDevDeps sharedReg
    "bar".data "^1.0.0".data "~1.2.0".data "2.0.0".data (by decide) (by decide)
    (by decide) (by decide) (by decide) (by decide) (by decide)
  refine ⟨h.2.2.1, h.2.2.2.1, ?_⟩
  rw [h.2.2.2.2]
  decide

end Depup
